import Mathlib

/-!
Verification of the mkdoc-staticpydoc (yaarg) plugin against its specification.

The development shallowly embeds the repository's Python sources:

* `yaarg/resolver.py` — `Resolver.resolve`, `Resolver.match`, `ResolverError`,
  with the stdlib `fnmatch` glob matcher modelled explicitly.
* `yaarg/generators/base.py` — `BaseGenerator.validate_options` over the
  `schema` library, instantiated at the parso generator's schema.
* `yaarg/generators/parso.py` — `ParsoGenerator.generate`, `find_symbol`,
  `iter_children`, and the `_generate_*_doc` renderers.
* `yaarg/markdown.py` — the target parsing in `YaargBlockProcessor.run`.

Python dictionaries are modelled as ordered association lists (insertion
order preserved, key lookup finds the single binding); YAML/JSON-style
option values as the inductive `Val`; generator instances as numeric ids
handed out by an explicit resolver state.
-/

set_option autoImplicit false

/-- Option values that can occur in a yaarg options mapping: the
possible YAML scalars that the code's schemas inspect (`None`, `str`,
`int`, `bool`) plus nested mappings.  `vbool` models a Python `bool`,
which in Python is also an `int` (relevant to `isinstance` checks). -/
inductive Val where
  | vnone
  | vstr (s : String)
  | vint (n : Int)
  | vbool (b : Bool)
  | vdict (entries : List (String × Val))

/-- A Python `dict` with string keys, as an insertion-ordered association
list.  Real dicts never hold duplicate keys; theorems that depend on this
carry an explicit `Nodup` hypothesis. -/
abbrev Dict := List (String × Val)

/-- Dictionary lookup (`d[k]` / `d.get(k)`): the value of the first binding
of `k`. -/
def alistGet {α : Type} : List (String × α) → String → Option α
  | [], _ => none
  | (k2, v) :: rest, k => if k2 == k then some v else alistGet rest k

/-- Dictionary assignment `d[k] = v`: replaces the binding in place if the
key is present, otherwise appends it (Python insertion order). -/
def alistSet {α : Type} : List (String × α) → String → α → List (String × α)
  | [], k, v => [(k, v)]
  | (k2, v2) :: rest, k, v =>
    if k2 == k then (k, v) :: rest else (k2, v2) :: alistSet rest k v

/-- `d.update(e)`: assign every binding of `e` into `d`, in order. -/
def dictUpdate (d e : Dict) : Dict :=
  e.foldl (fun acc kv => alistSet acc kv.1 kv.2) d

/-- `d.pop(k, None)`: the removed value (if any) together with the
dictionary without the key. -/
def dictPop (d : Dict) (k : String) : Option Val × Dict :=
  (alistGet d k, d.filter (fun kv => kv.1 != k))

/-! ## The stdlib `fnmatch` glob matcher

`Resolver.match` calls `fnmatch.fnmatch(str(filepath), config["glob"])`.
The stdlib translates the pattern left to right: `*` matches any run of
characters, `?` any single character, `[...]` a character set (leading `!`
negates; a `]` directly after `[` or `[!` is a literal member; ranges use
`-`); a `[` with no closing `]` is a literal character.  No case folding is
applied (posix behaviour).  The pattern is tokenized by a single pass and
then matched against the whole name. -/

/-- One item of a `[...]` character set: a literal member or a range. -/
inductive BrItem where
  | lit (c : Char)
  | range (lo hi : Char)

/-- A token of a translated glob pattern. -/
inductive Tok where
  | star
  | anyc
  | lit (c : Char)
  | cls (neg : Bool) (items : List BrItem)

/-- Parse the raw contents of a bracket set into items, reading `a-b`
as a range and any other character (including a trailing `-`) as a
literal, as the translated regex character class does. -/
def parseItems : List Char → List BrItem
  | a :: '-' :: b :: rest => BrItem.range a b :: parseItems rest
  | c :: rest => BrItem.lit c :: parseItems rest
  | [] => []

/-- Reinterpret the characters collected for an unterminated `[...]` as
ordinary pattern characters (only `*` and `?` stay special; there can be
no further bracket set since no `]` remains). -/
def brTokens (cs : List Char) : List Tok :=
  cs.map fun c => if c == '*' then Tok.star else if c == '?' then Tok.anyc else Tok.lit c

/-- Tokenizer state: scanning normally, just consumed `[`, just consumed
`[!`, or collecting set members (negation flag, members so far, reversed). -/
inductive PgState where
  | normal
  | sawLBrack
  | sawNeg
  | inBr (neg : Bool) (acc : List Char)

/-- One-pass glob pattern tokenizer (models `fnmatch.translate`). -/
def pgAux : PgState → List Char → List Tok
  | .normal, [] => []
  | .normal, c :: ps =>
    if c == '*' then Tok.star :: pgAux .normal ps
    else if c == '?' then Tok.anyc :: pgAux .normal ps
    else if c == '[' then pgAux .sawLBrack ps
    else Tok.lit c :: pgAux .normal ps
  | .sawLBrack, [] => [Tok.lit '[']
  | .sawLBrack, c :: ps =>
    if c == '!' then pgAux .sawNeg ps else pgAux (.inBr false [c]) ps
  | .sawNeg, [] => [Tok.lit '[', Tok.lit '!']
  | .sawNeg, c :: ps => pgAux (.inBr true [c]) ps
  | .inBr neg acc, [] =>
    Tok.lit '[' :: (if neg then [Tok.lit '!'] else []) ++ brTokens acc.reverse
  | .inBr neg acc, c :: ps =>
    if c == ']' then Tok.cls neg (parseItems acc.reverse) :: pgAux .normal ps
    else pgAux (.inBr neg (c :: acc)) ps

/-- Does character `c` belong to the bracket set? -/
def brMatch (neg : Bool) (items : List BrItem) (c : Char) : Bool :=
  let hit := items.any fun
    | BrItem.lit a => a == c
    | BrItem.range lo hi => decide (lo ≤ c) && decide (c ≤ hi)
  if neg then !hit else hit

/-- All suffixes of a character list, longest first (the candidate
remainders a `*` can leave for the rest of the pattern). -/
def suffixes : List Char → List (List Char)
  | [] => [[]]
  | c :: cs => (c :: cs) :: suffixes cs

/-- Match a token list against a name (anchored at both ends, as
`fnmatch`'s translated regex is). -/
def matchToks : List Tok → List Char → Bool
  | [], s => s.isEmpty
  | Tok.star :: ts, s => (suffixes s).any fun t => matchToks ts t
  | Tok.anyc :: ts, s =>
    match s with
    | [] => false
    | _ :: s2 => matchToks ts s2
  | Tok.lit c :: ts, s =>
    match s with
    | [] => false
    | c2 :: s2 => c == c2 && matchToks ts s2
  | Tok.cls neg items :: ts, s =>
    match s with
    | [] => false
    | c2 :: s2 => brMatch neg items c2 && matchToks ts s2

/-- `fnmatch.fnmatch(name, pat)` (posix: no case normalization). -/
def fnmatch (name pat : String) : Bool :=
  matchToks (pgAux .normal pat.data) name.data

/-! ## `yaarg/resolver.py` -/

/-- `ResolverConfig`: one rule `{glob, generator, options}`. -/
structure ResolverConfig where
  glob : String
  generator : String
  options : Dict

/-- The errors `Resolver.resolve` can raise before validation:
`ResolverError(filepath)` when no rule matches, or an import error when
the generator identifier cannot be resolved to a class. -/
inductive ResolveErr where
  | resolverError (filepath : String)
  | importError (path : String)

/-- Lines 39–50 of `resolver.py` up to the point where the merged options
are passed on: copy the raw options, pop the `generator` key, and if there
is no (non-`None`) override walk the configured rules in order; the first
rule whose glob matches the filepath supplies the generator identifier,
and its `options` are merged into the raw options by `options.update(...)`.
If no rule matches, raise `ResolverError(filepath)`.  `Resolver.match`
ignores its `options` argument and is inlined as `fnmatch`. -/
def resolveSelect (configs : List ResolverConfig) (filepath : String) (options : Dict) :
    Except ResolveErr (Val × Dict) :=
  let popped := dictPop options "generator"
  match popped.1 with
  | some Val.vnone | none =>
    match configs.find? (fun c => fnmatch filepath c.glob) with
    | some c => Except.ok (Val.vstr c.generator, dictUpdate popped.2 c.options)
    | none => Except.error (ResolveErr.resolverError filepath)
  | some g => Except.ok (g, popped.2)

/-- The mutable part of a `Resolver`: the `_generator_caches` dict (keyed
by generator path, holding instance identities), a supply of fresh
instance identities, and a log of constructor invocations (`generator_cls()`
calls), used to reason about how often construction happens. -/
structure ResolverState where
  caches : List (String × Nat)
  nextId : Nat
  ctorLog : List String

/-- `Resolver.__init__`: `self._generator_caches = {}`. -/
def initState : ResolverState :=
  { caches := [], nextId := 0, ctorLog := [] }

/-- Lines 52–56 of `resolver.py`: look the generator path up in the cache;
on a miss, import the class, construct an instance, and cache it.
`import_string` is modelled as always succeeding for a string path (the
class is identified by its path); construction is the point where the
ctor log grows. -/
def getGenerator (st : ResolverState) (path : String) : Nat × ResolverState :=
  match alistGet st.caches path with
  | some g => (g, st)
  | none =>
    (st.nextId,
     { caches := st.caches ++ [(path, st.nextId)],
       nextId := st.nextId + 1,
       ctorLog := st.ctorLog ++ [path] })

/-- `Resolver.resolve` without the final `validate_options` call (line 58
runs after the steps modelled here and affects neither the selection, the
merged options, nor the cache).  Returns the generator path and instance
identity together with the merged options, or the raised error; a
non-string, non-`None` `generator` override makes `import_string` fail. -/
def Resolver.resolve (configs : List ResolverConfig) (st : ResolverState)
    (filepath : String) (options : Dict) :
    Except ResolveErr ((String × Nat) × Dict) × ResolverState :=
  match resolveSelect configs filepath options with
  | Except.error e => (Except.error e, st)
  | Except.ok (Val.vstr genPath, opts) =>
    let r := getGenerator st genPath
    (Except.ok ((genPath, r.1), opts), r.2)
  | Except.ok (_, _) => (Except.error (ResolveErr.importError filepath), st)

/-- Run a sequence of `resolve` calls against one resolver, collecting for
each call the generator path and instance identity it returned (or `none`
if it raised), together with the final resolver state. -/
def runResolves (configs : List ResolverConfig) :
    ResolverState → List (String × Dict) → List (Option (String × Nat)) × ResolverState
  | st, [] => ([], st)
  | st, (f, o) :: rest =>
    let r := Resolver.resolve configs st f o
    let entry : Option (String × Nat) :=
      match r.1 with
      | Except.ok (pg, _) => some pg
      | Except.error _ => none
    let rec2 := runResolves configs r.2 rest
    (entry :: rec2.1, rec2.2)

/-- No (non-`None`) explicit generator override in the raw options. -/
def noOverride (options : Dict) : Prop :=
  alistGet options "generator" = none ∨ alistGet options "generator" = some Val.vnone

/-! ## Association-list lemmas -/

theorem alistGet_alistSet_self {α : Type} (d : List (String × α)) (k : String) (v : α) :
    alistGet (alistSet d k v) k = some v := by
  induction d with
  | nil => simp [alistSet, alistGet]
  | cons hd tl ih =>
    obtain ⟨k2, v2⟩ := hd
    by_cases h : k2 = k
    · subst h
      simp [alistSet, alistGet]
    · simp [alistSet, alistGet, h, ih]

theorem alistGet_alistSet_ne {α : Type} (d : List (String × α)) (k k' : String) (v : α)
    (h : k' ≠ k) : alistGet (alistSet d k v) k' = alistGet d k' := by
  have h' : k ≠ k' := Ne.symm h
  induction d with
  | nil => simp [alistSet, alistGet, h']
  | cons hd tl ih =>
    obtain ⟨k2, v2⟩ := hd
    by_cases h2 : k2 = k
    · subst h2
      simp [alistSet, alistGet, h']
    · by_cases h3 : k2 = k'
      · subst h3
        simp [alistSet, alistGet, h2]
      · simp [alistSet, alistGet, h2, h3, ih]

theorem mem_alistSet {α : Type} (d : List (String × α)) (k : String) (v : α) (x : String × α)
    (hx : x ∈ alistSet d k v) : x ∈ d ∨ x = (k, v) := by
  induction d with
  | nil => simp [alistSet] at hx; simp [hx]
  | cons hd tl ih =>
    obtain ⟨k2, v2⟩ := hd
    by_cases h2 : k2 = k
    · subst h2
      simp [alistSet] at hx
      rcases hx with h | h
      · right; simp [h]
      · left; simp [h]
    · simp [alistSet, h2] at hx
      rcases hx with h | h
      · left; simp [h]
      · rcases ih h with h3 | h3
        · left; simp [h3]
        · right; exact h3

theorem alistSet_of_get_none {α : Type} (d : List (String × α)) (k : String) (v : α)
    (h : alistGet d k = none) : alistSet d k v = d ++ [(k, v)] := by
  induction d with
  | nil => simp [alistSet]
  | cons hd tl ih =>
    obtain ⟨k2, v2⟩ := hd
    by_cases h2 : k2 = k
    · simp [alistGet, h2] at h
    · simp [alistGet, h2] at h
      simp [alistSet, h2, ih h]

theorem keys_alistSet_of_get_some {α : Type} (d : List (String × α)) (k : String) (v : α)
    (h : (alistGet d k).isSome) : (alistSet d k v).map Prod.fst = d.map Prod.fst := by
  induction d with
  | nil => simp [alistGet] at h
  | cons hd tl ih =>
    obtain ⟨k2, v2⟩ := hd
    by_cases h2 : k2 = k
    · subst h2
      simp [alistSet]
    · simp [alistGet, h2] at h
      simp [alistSet, h2, ih h]

theorem alistGet_eq_none_iff {α : Type} (d : List (String × α)) (k : String) :
    alistGet d k = none ↔ k ∉ d.map Prod.fst := by
  induction d with
  | nil => simp [alistGet]
  | cons hd tl ih =>
    obtain ⟨k2, v2⟩ := hd
    rw [List.map_cons, List.mem_cons, not_or]
    by_cases h2 : k2 = k
    · subst h2
      simp [alistGet]
    · have h2' : k ≠ k2 := Ne.symm h2
      simp [alistGet, h2, ih, h2']

theorem nodup_keys_alistSet {α : Type} (d : List (String × α)) (k : String) (v : α)
    (h : (d.map Prod.fst).Nodup) : ((alistSet d k v).map Prod.fst).Nodup := by
  by_cases hk : (alistGet d k).isSome
  · rw [keys_alistSet_of_get_some d k v hk]; exact h
  · have hnone : alistGet d k = none := by
      cases hh : alistGet d k
      · rfl
      · simp [hh] at hk
    rw [alistSet_of_get_none d k v hnone]
    have hkn : k ∉ d.map Prod.fst := (alistGet_eq_none_iff d k).mp hnone
    simp [List.nodup_append, h, hkn]

theorem dictUpdate_cons (d : Dict) (k : String) (v : Val) (e : Dict) :
    dictUpdate d ((k, v) :: e) = dictUpdate (alistSet d k v) e := rfl

theorem alistGet_dictUpdate_not_mem (d e : Dict) (k : String)
    (h : k ∉ e.map Prod.fst) : alistGet (dictUpdate d e) k = alistGet d k := by
  induction e generalizing d with
  | nil => rfl
  | cons hd tl ih =>
    obtain ⟨k2, v2⟩ := hd
    rw [List.map_cons, List.mem_cons, not_or] at h
    rw [dictUpdate_cons, ih _ h.2, alistGet_alistSet_ne _ _ _ _ h.1]

theorem alistGet_dictUpdate_mem (d e : Dict) (k : String) (v : Val)
    (hnd : (e.map Prod.fst).Nodup) (hmem : (k, v) ∈ e) :
    alistGet (dictUpdate d e) k = some v := by
  induction e generalizing d with
  | nil => simp at hmem
  | cons hd tl ih =>
    obtain ⟨k2, v2⟩ := hd
    rw [List.map_cons, List.nodup_cons] at hnd
    rcases List.mem_cons.mp hmem with h | h
    · obtain ⟨hk, hv⟩ := Prod.mk.injEq k v k2 v2 ▸ h
      subst hk; subst hv
      rw [dictUpdate_cons, alistGet_dictUpdate_not_mem _ _ _ hnd.1,
        alistGet_alistSet_self]
    · rw [dictUpdate_cons]
      exact ih _ hnd.2 h

theorem find?_append_first {α : Type} (p : α → Bool) (pre post : List α) (c : α)
    (hpre : ∀ x ∈ pre, p x = false) (hc : p c = true) :
    (pre ++ c :: post).find? p = some c := by
  induction pre with
  | nil => simp [List.find?, hc]
  | cons hd tl ih =>
    have hhd : p hd = false := hpre hd (by simp)
    simp only [List.cons_append, List.find?, hhd]
    exact ih fun x hx => hpre x (by simp [hx])

/-- Shared helper: with no explicit override, `resolveSelect` returns the
generator of the first matching rule and merges that rule's options into
the raw options with `dict.update` (rule values win on collision). -/
theorem resolveSelect_first_match
    (pre post : List ResolverConfig) (c : ResolverConfig) (filepath : String) (options : Dict)
    (hno : noOverride options)
    (hpre : ∀ c2 ∈ pre, fnmatch filepath c2.glob = false)
    (hc : fnmatch filepath c.glob = true) :
    resolveSelect (pre ++ c :: post) filepath options =
      Except.ok (Val.vstr c.generator, dictUpdate (dictPop options "generator").2 c.options) := by
  have hfind := find?_append_first (fun c2 => fnmatch filepath c2.glob) pre post c hpre hc
  rcases hno with h | h <;>
    simp [resolveSelect, dictPop, h, hfind]

/-- Claim C1, as stated, is false at a concrete input: with a matched rule
whose `options` carry `depth = 5` and raw options carrying `depth = 3`,
the merged options that `resolve` passes to validation hold the rule's
value `5`, not the raw value `3` (`options.update(config["options"])`
lets the rule's defaults win). -/
theorem c1_raw_precedence_counterexample :
    resolveSelect [⟨"*", "g", [("depth", Val.vint 5)]⟩] "a.py" [("depth", Val.vint 3)] =
      Except.ok (Val.vstr "g", [("depth", Val.vint 5)]) ∧
    alistGet [("depth", Val.vint 5)] "depth" ≠ some (Val.vint 3) := by
  refine ⟨rfl, ?_⟩
  intro h
  simp [alistGet] at h

/-- Claim C1 (amended): in the merged options that `resolve` passes to
option validation, any key present in the matched rule's default-options
keeps the rule's value, overriding the same key in the invocation-level
raw options (rule-level values win on key collision). -/
theorem c1_rule_defaults_override_raw
    (pre post : List ResolverConfig) (c : ResolverConfig) (filepath : String) (options : Dict)
    (hno : noOverride options)
    (hpre : ∀ c2 ∈ pre, fnmatch filepath c2.glob = false)
    (hc : fnmatch filepath c.glob = true)
    (hnd : (c.options.map Prod.fst).Nodup) :
    resolveSelect (pre ++ c :: post) filepath options =
      Except.ok (Val.vstr c.generator, dictUpdate (dictPop options "generator").2 c.options) ∧
    ∀ k v, (k, v) ∈ c.options →
      alistGet (dictUpdate (dictPop options "generator").2 c.options) k = some v := by
  refine ⟨resolveSelect_first_match pre post c filepath options hno hpre hc, ?_⟩
  intro k v hmem
  exact alistGet_dictUpdate_mem _ _ _ _ hnd hmem

/-- Witness for C1's amended theorem at a concrete input: the matched
rule's `deep = false` overrides the raw `deep = true`. -/
theorem c1_rule_defaults_override_raw_witness :
    resolveSelect [⟨"*", "gen.mod:Cls", [("deep", Val.vbool false)]⟩] "m.py"
        [("deep", Val.vbool true)] =
      Except.ok (Val.vstr "gen.mod:Cls",
        dictUpdate (dictPop [("deep", Val.vbool true)] "generator").2
          [("deep", Val.vbool false)]) ∧
    alistGet (dictUpdate (dictPop [("deep", Val.vbool true)] "generator").2
        [("deep", Val.vbool false)]) "deep" = some (Val.vbool false) := by
  have h := c1_rule_defaults_override_raw [] [] ⟨"*", "gen.mod:Cls", [("deep", Val.vbool false)]⟩
    "m.py" [("deep", Val.vbool true)] (Or.inl rfl)
    (by intro c2 hc2; simp at hc2) rfl (by simp)
  exact ⟨h.1, h.2 "deep" (Val.vbool false) (by simp)⟩

/-- Claim C3: with no explicit generator override, `resolve` selects the
generator identifier and default-options of the first rule whose glob
matches the filepath — the rules after it (`post`) are arbitrary and do
not influence the result, even if one of them also matches. -/
theorem c3_first_match_wins
    (pre post : List ResolverConfig) (c : ResolverConfig) (filepath : String) (options : Dict)
    (hno : noOverride options)
    (hpre : ∀ c2 ∈ pre, fnmatch filepath c2.glob = false)
    (hc : fnmatch filepath c.glob = true) :
    resolveSelect (pre ++ c :: post) filepath options =
      Except.ok (Val.vstr c.generator, dictUpdate (dictPop options "generator").2 c.options) :=
  resolveSelect_first_match pre post c filepath options hno hpre hc

/-- Witness for C3: the first (catch-all) rule wins over a later rule
whose pattern `*.py` is the more specific match for `a.py`. -/
theorem c3_first_match_wins_witness :
    resolveSelect [⟨"*", "g1", []⟩, ⟨"*.py", "g2", []⟩] "a.py" [] =
      Except.ok (Val.vstr "g1", dictUpdate (dictPop [] "generator").2 []) :=
  c3_first_match_wins [] [⟨"*.py", "g2", []⟩] ⟨"*", "g1", []⟩ "a.py" []
    (Or.inl rfl) (by intro c2 hc2; simp at hc2) rfl

/-- Claim C4: `resolve` raises `ResolverError` carrying the filepath iff
no rule's glob matches and the raw options carry no explicit (non-null)
`generator` override; with an explicit override present, the rule
sequence is never consulted (the result is the same for every rule
sequence) and the call succeeds with the override. -/
theorem c4_resolver_error_iff_no_match_no_override
    (configs : List ResolverConfig) (filepath : String) (options : Dict) :
    (resolveSelect configs filepath options =
        Except.error (ResolveErr.resolverError filepath) ↔
      (noOverride options ∧ ∀ c ∈ configs, fnmatch filepath c.glob = false)) ∧
    (∀ g, alistGet options "generator" = some g → g ≠ Val.vnone →
      ∀ configs2 : List ResolverConfig,
        resolveSelect configs filepath options = resolveSelect configs2 filepath options ∧
        resolveSelect configs filepath options =
          Except.ok (g, (dictPop options "generator").2)) := by
  constructor
  · cases hg : alistGet options "generator" with
    | none =>
      cases hfind : configs.find? (fun c => fnmatch filepath c.glob) with
      | none =>
        rw [List.find?_eq_none] at hfind
        simp [resolveSelect, dictPop, hg, List.find?_eq_none.mpr hfind]
        exact ⟨Or.inl hg, fun c hc => Bool.not_eq_true _ ▸ (by simpa using hfind c hc)⟩
      | some c =>
        have hmem := List.mem_of_find?_eq_some hfind
        have hmatch := List.find?_some hfind
        simp [resolveSelect, dictPop, hg, hfind]
        intro _
        exact ⟨c, hmem, hmatch⟩
    | some g =>
      cases g with
      | vnone =>
        cases hfind : configs.find? (fun c => fnmatch filepath c.glob) with
        | none =>
          rw [List.find?_eq_none] at hfind
          simp [resolveSelect, dictPop, hg, List.find?_eq_none.mpr hfind]
          exact ⟨Or.inr hg, fun c hc => Bool.not_eq_true _ ▸ (by simpa using hfind c hc)⟩
        | some c =>
          have hmem := List.mem_of_find?_eq_some hfind
          have hmatch := List.find?_some hfind
          simp [resolveSelect, dictPop, hg, hfind]
          intro _
          exact ⟨c, hmem, hmatch⟩
      | vstr s => simp [resolveSelect, dictPop, hg, noOverride]
      | vint n => simp [resolveSelect, dictPop, hg, noOverride]
      | vbool b => simp [resolveSelect, dictPop, hg, noOverride]
      | vdict e => simp [resolveSelect, dictPop, hg, noOverride]
  · intro g hg hne configs2
    cases g with
    | vnone => exact absurd rfl hne
    | vstr s => exact ⟨by simp [resolveSelect, dictPop, hg], by simp [resolveSelect, dictPop, hg]⟩
    | vint n => exact ⟨by simp [resolveSelect, dictPop, hg], by simp [resolveSelect, dictPop, hg]⟩
    | vbool b => exact ⟨by simp [resolveSelect, dictPop, hg], by simp [resolveSelect, dictPop, hg]⟩
    | vdict e => exact ⟨by simp [resolveSelect, dictPop, hg], by simp [resolveSelect, dictPop, hg]⟩

/-- Witness for C4: with no override and a single non-matching rule the
error carries the filepath; with an explicit override the same rule
sequence yields success. -/
theorem c4_resolver_error_witness :
    resolveSelect [⟨"*.md", "m", []⟩] "a.py" [] =
      Except.error (ResolveErr.resolverError "a.py") ∧
    resolveSelect [⟨"*.md", "m", []⟩] "a.py" [("generator", Val.vstr "g")] =
      Except.ok (Val.vstr "g", (dictPop [("generator", Val.vstr "g")] "generator").2) := by
  constructor
  · exact (c4_resolver_error_iff_no_match_no_override [⟨"*.md", "m", []⟩] "a.py" []).1.mpr
      ⟨Or.inl rfl, by intro c2 hc2; simp at hc2; rw [hc2]; rfl⟩
  · exact ((c4_resolver_error_iff_no_match_no_override [⟨"*.md", "m", []⟩] "a.py"
      [("generator", Val.vstr "g")]).2 (Val.vstr "g") rfl (by intro h; cases h)
      [⟨"*.md", "m", []⟩]).2

/-! ## `yaarg/markdown.py` — target parsing in `YaargBlockProcessor.run` -/

/-- Python `str.split(sep, maxsplit)` on character lists: split on each
`sep` occurrence, at most `n` times; the remainder stays in the last
part. -/
def splitMax (sep : Char) : Nat → List Char → List (List Char)
  | _, [] => [[]]
  | 0, s => [s]
  | n + 1, c :: cs =>
    if c == sep then [] :: splitMax sep n cs
    else
      match splitMax sep (n + 1) cs with
      | [] => [[c]]
      | p :: rest => (c :: p) :: rest

/-- Lines 44–48 of `markdown.py`: `target = match.group(1).split(":", 2)`,
then `filename, symbol = target[0], None` when fewer than 2 parts, else
the tuple unpacking `filename, symbol = target`, which raises a
`ValueError` when `target` has 3 parts. -/
def YaargBlockProcessor.runTarget (t : String) : Except String (String × Option String) :=
  let target := (splitMax ':' 2 t.data).map fun cs => String.mk cs
  if target.length < 2 then
    Except.ok (target.headD "", none)
  else
    match target with
    | [f, s] => Except.ok (f, some s)
    | _ => Except.error "ValueError: too many values to unpack"

theorem splitMax_length (sep : Char) (n : Nat) (s : List Char) :
    (splitMax sep n s).length = min (s.count sep) n + 1 := by
  induction s generalizing n with
  | nil => cases n <;> simp [splitMax]
  | cons c cs ih =>
    cases n with
    | zero => simp [splitMax]
    | succ m =>
      by_cases hc : c == sep
      · have hc2 : c = sep := by simpa using hc
        simp [splitMax, hc, List.count_cons, hc2, ih]
        omega
      · have hc2 : ¬c = sep := by simpa using hc
        have hne : (splitMax sep (m + 1) cs).length = min (cs.count sep) (m + 1) + 1 := ih _
        cases hsp : splitMax sep (m + 1) cs with
        | nil => rw [hsp] at hne; simp at hne
        | cons p rest =>
          rw [hsp] at hne
          simp [splitMax, hc, List.count_cons, hc2, hsp]
          simpa using hne

/-- Claim C10: if the captured target text contains two or more `:`
characters, `run`'s target parsing raises the tuple-unpacking
`ValueError` instead of producing a `(filename, symbol)` pair; with
zero or one colon it succeeds. -/
theorem c10_run_target_colons (t : String) :
    (2 ≤ t.data.count ':' →
      YaargBlockProcessor.runTarget t =
        Except.error "ValueError: too many values to unpack") ∧
    (t.data.count ':' < 2 → ∃ r, YaargBlockProcessor.runTarget t = Except.ok r) := by
  have hlen : ((splitMax ':' 2 t.data).map fun cs => String.mk cs).length =
      min (t.data.count ':') 2 + 1 := by
    rw [List.length_map, splitMax_length]
  constructor
  · intro h2
    have h3 : ((splitMax ':' 2 t.data).map fun cs => String.mk cs).length = 3 := by
      rw [hlen, Nat.min_eq_right h2]
    obtain ⟨a, b, c, habc⟩ := List.length_eq_three.mp h3
    simp only [YaargBlockProcessor.runTarget, habc]
    simp
  · intro h2
    have h2' : t.data.count ':' = 0 ∨ t.data.count ':' = 1 := by omega
    rcases h2' with h0 | h1
    · have h3 : ((splitMax ':' 2 t.data).map fun cs => String.mk cs).length = 1 := by
        rw [hlen, h0]; rfl
      obtain ⟨a, ha⟩ := List.length_eq_one.mp h3
      refine ⟨(a, none), ?_⟩
      simp [YaargBlockProcessor.runTarget, ha]
    · have h3 : ((splitMax ':' 2 t.data).map fun cs => String.mk cs).length = 2 := by
        rw [hlen, h1]; rfl
      obtain ⟨a, b, hab⟩ := List.length_eq_two.mp h3
      refine ⟨(a, some b), ?_⟩
      simp [YaargBlockProcessor.runTarget, hab]

/-- Witness for C10: `a:b:c` raises, `pkg/mod.py:Cls.meth` and a bare
filename succeed. -/
theorem c10_run_target_colons_witness :
    YaargBlockProcessor.runTarget "a:b:c" =
      Except.error "ValueError: too many values to unpack" ∧
    (∃ r, YaargBlockProcessor.runTarget "mod.py:Cls.meth" = Except.ok r) ∧
    (∃ r, YaargBlockProcessor.runTarget "mod.py" = Except.ok r) :=
  ⟨(c10_run_target_colons "a:b:c").1 (by decide),
   (c10_run_target_colons "mod.py:Cls.meth").2 (by decide),
   (c10_run_target_colons "mod.py").2 (by decide)⟩

/-! ## C9: the generator-instance cache -/

theorem alistGet_append_of_some {α : Type} (l l2 : List (String × α)) (k : String) (g : α)
    (h : alistGet l k = some g) : alistGet (l ++ l2) k = some g := by
  induction l with
  | nil => simp [alistGet] at h
  | cons hd tl ih =>
    obtain ⟨k2, v2⟩ := hd
    by_cases h2 : k2 = k
    · subst h2
      simp [alistGet] at h ⊢
      exact h
    · simp [alistGet, h2] at h ⊢
      exact ih h

theorem alistGet_append_of_none {α : Type} (l l2 : List (String × α)) (k : String)
    (h : alistGet l k = none) : alistGet (l ++ l2) k = alistGet l2 k := by
  induction l with
  | nil => rfl
  | cons hd tl ih =>
    obtain ⟨k2, v2⟩ := hd
    by_cases h2 : k2 = k
    · simp [alistGet, h2] at h
    · simp [alistGet, h2] at h ⊢
      exact ih h

theorem getGenerator_mono (st : ResolverState) (q p : String) (g : Nat)
    (h : alistGet st.caches p = some g) :
    alistGet (getGenerator st q).2.caches p = some g := by
  unfold getGenerator
  cases hq : alistGet st.caches q with
  | some g2 => simpa using h
  | none => simpa using alistGet_append_of_some _ _ _ _ h

theorem getGenerator_post (st : ResolverState) (p : String) :
    alistGet (getGenerator st p).2.caches p = some (getGenerator st p).1 := by
  unfold getGenerator
  cases hp : alistGet st.caches p with
  | some g => simpa using hp
  | none =>
    simp only []
    rw [alistGet_append_of_none _ _ _ hp]
    simp [alistGet]

theorem resolve_caches_mono (configs : List ResolverConfig) (st : ResolverState)
    (f : String) (o : Dict) (p : String) (g : Nat)
    (h : alistGet st.caches p = some g) :
    alistGet (Resolver.resolve configs st f o).2.caches p = some g := by
  unfold Resolver.resolve
  cases hsel : resolveSelect configs f o with
  | error e => exact h
  | ok vo =>
    obtain ⟨v, opts⟩ := vo
    cases v with
    | vstr s => exact getGenerator_mono st s p g h
    | vnone => exact h
    | vint n => exact h
    | vbool b => exact h
    | vdict e => exact h

theorem resolve_post (configs : List ResolverConfig) (st : ResolverState)
    (f : String) (o : Dict) (p : String) (g : Nat) (o2 : Dict)
    (h : (Resolver.resolve configs st f o).1 = Except.ok ((p, g), o2)) :
    alistGet (Resolver.resolve configs st f o).2.caches p = some g := by
  unfold Resolver.resolve at h ⊢
  cases hsel : resolveSelect configs f o with
  | error e => rw [hsel] at h; cases h
  | ok vo =>
    obtain ⟨v, opts⟩ := vo
    rw [hsel] at h
    cases v with
    | vstr s =>
      simp at h
      obtain ⟨⟨hp, hg⟩, _⟩ := h
      subst hp; subst hg
      simpa using getGenerator_post st s
    | vnone => cases h
    | vint n => cases h
    | vbool b => cases h
    | vdict e => cases h

theorem runResolves_caches_mono (configs : List ResolverConfig)
    (calls : List (String × Dict)) (st : ResolverState) (p : String) (g : Nat)
    (h : alistGet st.caches p = some g) :
    alistGet (runResolves configs st calls).2.caches p = some g := by
  induction calls generalizing st with
  | nil => exact h
  | cons hd tl ih =>
    obtain ⟨f, o⟩ := hd
    simp only [runResolves]
    exact ih _ (resolve_caches_mono configs st f o p g h)

theorem runResolves_result (configs : List ResolverConfig)
    (calls : List (String × Dict)) (st : ResolverState) (i : Nat) (p : String) (g : Nat)
    (h : (runResolves configs st calls).1.get? i = some (some (p, g))) :
    alistGet (runResolves configs st calls).2.caches p = some g := by
  induction calls generalizing st i with
  | nil => simp [runResolves] at h
  | cons hd tl ih =>
    obtain ⟨f, o⟩ := hd
    simp only [runResolves] at h ⊢
    cases i with
    | zero =>
      simp at h
      cases hr : (Resolver.resolve configs st f o).1 with
      | error e => rw [hr] at h; cases h
      | ok po =>
        obtain ⟨pg, o2⟩ := po
        rw [hr] at h
        simp at h
        obtain ⟨hpg, _⟩ := Prod.mk.injEq .. ▸ h
        have hpost := resolve_post configs st f o p g o2 (by rw [hr, h])
        exact runResolves_caches_mono configs tl _ p g hpost
    | succ n =>
      simp only [List.get?_cons_succ] at h
      exact ih _ n h

/-- The resolver-state invariant tying constructor invocations to cache
contents: an identifier's constructor has run exactly once if the
identifier is cached, and never otherwise. -/
def CacheCtorInv (st : ResolverState) : Prop :=
  ∀ p, st.ctorLog.count p = if (alistGet st.caches p).isSome then 1 else 0

theorem getGenerator_inv (st : ResolverState) (p : String) (h : CacheCtorInv st) :
    CacheCtorInv (getGenerator st p).2 := by
  intro q
  unfold getGenerator
  cases hp : alistGet st.caches p with
  | some g => simpa using h q
  | none =>
    by_cases hq : q = p
    · subst hq
      have h0 := h q
      rw [hp] at h0
      simp at h0
      simp [List.count_append, h0, alistGet_append_of_none _ _ _ hp, alistGet,
        List.count_singleton]
    · have hqp : ¬(p == q) = true := by simp [Ne.symm hq]
      have h0 := h q
      cases hcq : alistGet st.caches q with
      | some g2 =>
        rw [hcq] at h0
        simp at h0
        simp [List.count_append, h0, alistGet_append_of_some _ _ _ _ hcq,
          List.count_singleton, hqp]
      | none =>
        rw [hcq] at h0
        simp at h0
        simp [List.count_append, h0, alistGet_append_of_none _ _ _ hcq, alistGet, hqp,
          List.count_singleton]

theorem resolve_inv (configs : List ResolverConfig) (st : ResolverState)
    (f : String) (o : Dict) (h : CacheCtorInv st) :
    CacheCtorInv (Resolver.resolve configs st f o).2 := by
  unfold Resolver.resolve
  cases hsel : resolveSelect configs f o with
  | error e => exact h
  | ok vo =>
    obtain ⟨v, opts⟩ := vo
    cases v with
    | vstr s => exact getGenerator_inv st s h
    | vnone => exact h
    | vint n => exact h
    | vbool b => exact h
    | vdict e => exact h

theorem runResolves_inv (configs : List ResolverConfig)
    (calls : List (String × Dict)) (st : ResolverState) (h : CacheCtorInv st) :
    CacheCtorInv (runResolves configs st calls).2 := by
  induction calls generalizing st with
  | nil => exact h
  | cons hd tl ih =>
    obtain ⟨f, o⟩ := hd
    simp only [runResolves]
    exact ih _ (resolve_inv configs st f o h)

/-- Claim C9: generator instances are cached by identifier within one
resolver: over any sequence of `resolve` calls from a fresh resolver,
any two calls that return the same generator identifier return the same
instance, and the generator constructor runs at most once per identifier
over the resolver's lifetime. -/
theorem c9_generator_cache (configs : List ResolverConfig) (calls : List (String × Dict)) :
    (∀ i j p g1 g2,
      (runResolves configs initState calls).1.get? i = some (some (p, g1)) →
      (runResolves configs initState calls).1.get? j = some (some (p, g2)) →
      g1 = g2) ∧
    (∀ p, (runResolves configs initState calls).2.ctorLog.count p ≤ 1) := by
  constructor
  · intro i j p g1 g2 hi hj
    have h1 := runResolves_result configs calls initState i p g1 hi
    have h2 := runResolves_result configs calls initState j p g2 hj
    rw [h1] at h2
    exact Option.some.inj h2
  · intro p
    have hinv : CacheCtorInv initState := by
      intro q
      simp [initState, alistGet]
    have h := runResolves_inv configs calls initState hinv p
    rw [h]
    split <;> simp

/-- Witness for C9: two calls on different files that both resolve to the
identifier `"g"` return the same instance id `0`, and `"g"`'s constructor
ran once. -/
theorem c9_generator_cache_witness :
    (runResolves [⟨"*", "g", []⟩] initState [("a.py", []), ("b.py", [])]).1.get? 0 =
      some (some ("g", 0)) ∧
    (0 : Nat) = 0 ∧
    (runResolves [⟨"*", "g", []⟩] initState
      [("a.py", []), ("b.py", [])]).2.ctorLog.count "g" ≤ 1 :=
  ⟨rfl,
   (c9_generator_cache [⟨"*", "g", []⟩] [("a.py", []), ("b.py", [])]).1 0 1 "g" 0 0 rfl rfl,
   (c9_generator_cache [⟨"*", "g", []⟩] [("a.py", []), ("b.py", [])]).2 "g"⟩

/-! ## `BaseGenerator.validate_options` at the parso schema

`base.py` line 25 runs `self.options_schema.validate(options)`.  For a
`schema.Schema({...})` whose keys are all `Optional(key, default=...)`,
the library walks the data items in order, matching each key against the
schema: an unrecognized key fails, a recognized key's value is checked
against the declared type by `isinstance` (a nested `Schema` recursively),
and accepted items are written into the output dict in data order.
Afterwards each optional key that was not covered is appended with its
default (defaults are taken verbatim, not validated).  A Python `bool`
is an `int`, so the `int`-typed `depth` also accepts booleans.
`ParsoGenerator.options_schema` (parso.py lines 46–61) declares
`version: str = None`, `encoding: str = "utf-8"`, `depth: int = 2`,
`deep: bool = True`, and the nested
`methods = {undocumented: bool = True, private: bool = False}`. -/

/-- Validate one entry of the nested `methods` mapping. -/
def validateMethodsEntry : String → Val → Option Val
  | "undocumented", Val.vbool b => some (Val.vbool b)
  | "private", Val.vbool b => some (Val.vbool b)
  | _, _ => none

/-- The data-walking loop of `Schema.validate` on a dict: validate each
entry with the per-entry validator, writing results into the output in
order; fail on the first rejected entry. -/
def validateEntries (ev : String → Val → Option Val) : Dict → Dict → Option Dict
  | acc, [] => some acc
  | acc, (k, v) :: rest =>
    match ev k v with
    | some v2 => validateEntries ev (alistSet acc k v2) rest
    | none => none

/-- Append a default binding for `k` unless the key is already covered. -/
def addDefault (d : Dict) (k : String) (v : Val) : Dict :=
  if (alistGet d k).isSome then d else d ++ [(k, v)]

/-- The defaults of the nested `methods` schema. -/
def methodsDefaults (d : Dict) : Dict :=
  addDefault (addDefault d "undocumented" (Val.vbool true)) "private" (Val.vbool false)

/-- Validation of the nested `methods` schema. -/
def validateMethodsDict (d : Dict) : Option Dict :=
  (validateEntries validateMethodsEntry [] d).map methodsDefaults

/-- Validate one entry of the parso options mapping.  `depth` accepts a
`bool` as well because `isinstance(True, int)` holds in Python. -/
def validateParsoEntry : String → Val → Option Val
  | "version", Val.vstr s => some (Val.vstr s)
  | "encoding", Val.vstr s => some (Val.vstr s)
  | "depth", Val.vint n => some (Val.vint n)
  | "depth", Val.vbool b => some (Val.vbool b)
  | "deep", Val.vbool b => some (Val.vbool b)
  | "methods", Val.vdict md => (validateMethodsDict md).map Val.vdict
  | _, _ => none

/-- The defaults of the parso options schema, appended in declaration
order for keys the data did not cover. -/
def parsoDefaults (d : Dict) : Dict :=
  addDefault (addDefault (addDefault (addDefault (addDefault d
    "version" Val.vnone)
    "encoding" (Val.vstr "utf-8"))
    "depth" (Val.vint 2))
    "deep" (Val.vbool true))
    "methods" (Val.vdict [("undocumented", Val.vbool true), ("private", Val.vbool false)])

/-- `BaseGenerator.validate_options` instantiated at
`ParsoGenerator.options_schema`: `none` models a raised `SchemaError`. -/
def validate_options (d : Dict) : Option Dict :=
  (validateEntries validateParsoEntry [] d).map parsoDefaults

/-- The fully-defaulted parso options: the result of validating `{}`. -/
def parsoDefaultOptions : Dict :=
  [("version", Val.vnone), ("encoding", Val.vstr "utf-8"), ("depth", Val.vint 2),
   ("deep", Val.vbool true),
   ("methods", Val.vdict [("undocumented", Val.vbool true), ("private", Val.vbool false)])]

/-- A per-entry validator is idempotent: re-validating an accepted value
yields it back. -/
def EntIdem (ev : String → Val → Option Val) : Prop :=
  ∀ k v v2, ev k v = some v2 → ev k v2 = some v2

/-- Every entry of the dict re-validates to itself. -/
def AllValid (ev : String → Val → Option Val) (d : Dict) : Prop :=
  ∀ k v, (k, v) ∈ d → ev k v = some v

theorem alistGet_isSome_iff_mem {α : Type} (d : List (String × α)) (k : String) :
    (alistGet d k).isSome ↔ k ∈ d.map Prod.fst := by
  rw [Option.isSome_iff_ne_none, Ne, alistGet_eq_none_iff, not_not]

theorem validateEntries_allValid (ev : String → Val → Option Val) (hev : EntIdem ev)
    (l : Dict) (acc b : Dict) (hacc : AllValid ev acc)
    (h : validateEntries ev acc l = some b) : AllValid ev b := by
  induction l generalizing acc with
  | nil =>
    simp [validateEntries] at h
    exact h ▸ hacc
  | cons hd tl ih =>
    obtain ⟨k, v⟩ := hd
    simp only [validateEntries] at h
    cases he : ev k v with
    | none => rw [he] at h; cases h
    | some v2 =>
      rw [he] at h
      refine ih _ ?_ h
      intro k3 v3 hmem
      rcases mem_alistSet acc k v2 (k3, v3) hmem with h3 | h3
      · exact hacc k3 v3 h3
      · obtain ⟨hk, hv⟩ := Prod.mk.injEq .. ▸ h3
        subst hk; subst hv
        exact hev k3 v v3 he

theorem validateEntries_nodup (ev : String → Val → Option Val)
    (l : Dict) (acc b : Dict) (hacc : (acc.map Prod.fst).Nodup)
    (h : validateEntries ev acc l = some b) : (b.map Prod.fst).Nodup := by
  induction l generalizing acc with
  | nil =>
    simp [validateEntries] at h
    exact h ▸ hacc
  | cons hd tl ih =>
    obtain ⟨k, v⟩ := hd
    simp only [validateEntries] at h
    cases he : ev k v with
    | none => rw [he] at h; cases h
    | some v2 =>
      rw [he] at h
      exact ih _ (nodup_keys_alistSet acc k v2 hacc) h

theorem alistGet_isSome_alistSet {α : Type} (d : List (String × α)) (k q : String) (v : α)
    (h : (alistGet d q).isSome) : (alistGet (alistSet d k v) q).isSome := by
  by_cases hq : q = k
  · subst hq
    rw [alistGet_alistSet_self]
    rfl
  · rw [alistGet_alistSet_ne _ _ _ _ hq]
    exact h

theorem validateEntries_covers (ev : String → Val → Option Val)
    (l : Dict) (acc b : Dict) (k : String)
    (h : validateEntries ev acc l = some b)
    (hk : (alistGet acc k).isSome ∨ k ∈ l.map Prod.fst) :
    (alistGet b k).isSome := by
  induction l generalizing acc with
  | nil =>
    simp [validateEntries] at h
    rcases hk with hk | hk
    · exact h ▸ hk
    · simp at hk
  | cons hd tl ih =>
    obtain ⟨k2, v⟩ := hd
    simp only [validateEntries] at h
    cases he : ev k2 v with
    | none => rw [he] at h; cases h
    | some v2 =>
      rw [he] at h
      refine ih _ h ?_
      rcases hk with hk | hk
      · exact Or.inl (alistGet_isSome_alistSet acc k2 k v2 hk)
      · rw [List.map_cons, List.mem_cons] at hk
        rcases hk with hk | hk
        · subst hk
          left
          rw [alistGet_alistSet_self]
          rfl
        · exact Or.inr hk

theorem validateEntries_reconstruct (ev : String → Val → Option Val)
    (l acc : Dict) (hl : AllValid ev l)
    (hnd : ((acc.map Prod.fst) ++ (l.map Prod.fst)).Nodup) :
    validateEntries ev acc l = some (acc ++ l) := by
  induction l generalizing acc with
  | nil => simp [validateEntries]
  | cons hd tl ih =>
    obtain ⟨k, v⟩ := hd
    have hev : ev k v = some v := hl k v (by simp)
    simp only [validateEntries, hev]
    have hknotacc : k ∉ acc.map Prod.fst := by
      rw [List.map_cons] at hnd
      have := (List.nodup_append.mp hnd).2.2
      intro hmem
      exact this hmem (by simp)
    have hset : alistSet acc k v = acc ++ [(k, v)] :=
      alistSet_of_get_none acc k v ((alistGet_eq_none_iff acc k).mpr hknotacc)
    rw [hset]
    have hl2 : AllValid ev tl := fun k2 v2 hmem => hl k2 v2 (by simp [hmem])
    have hnd2 : (((acc ++ [(k, v)]).map Prod.fst) ++ (tl.map Prod.fst)).Nodup := by
      rw [List.map_append]
      simpa [List.append_assoc] using hnd
    rw [ih _ hl2 hnd2, List.append_assoc]
    rfl

theorem mem_addDefault (d : Dict) (k : String) (v : Val) (x : String × Val)
    (hx : x ∈ addDefault d k v) : x ∈ d ∨ x = (k, v) := by
  unfold addDefault at hx
  split at hx
  · exact Or.inl hx
  · rw [List.mem_append] at hx
    rcases hx with h | h
    · exact Or.inl h
    · simp at h
      right
      simp [h]

theorem addDefault_of_isSome (d : Dict) (k : String) (v : Val)
    (h : (alistGet d k).isSome) : addDefault d k v = d := by
  simp [addDefault, h]

theorem alistGet_isSome_addDefault_self (d : Dict) (k : String) (v : Val) :
    (alistGet (addDefault d k v) k).isSome := by
  unfold addDefault
  split
  · assumption
  · rename_i h
    have hnone : alistGet d k = none := by
      cases hh : alistGet d k
      · rfl
      · rw [hh] at h; simp at h
    rw [alistGet_append_of_none _ _ _ hnone]
    simp [alistGet]

theorem alistGet_isSome_addDefault_mono (d : Dict) (k q : String) (v : Val)
    (h : (alistGet d q).isSome) : (alistGet (addDefault d k v) q).isSome := by
  unfold addDefault
  split
  · exact h
  · obtain ⟨g, hg⟩ := Option.isSome_iff_exists.mp h
    rw [alistGet_append_of_some _ _ _ _ hg]
    rfl

theorem nodup_keys_addDefault (d : Dict) (k : String) (v : Val)
    (h : (d.map Prod.fst).Nodup) : ((addDefault d k v).map Prod.fst).Nodup := by
  unfold addDefault
  split
  · exact h
  · rename_i hk
    have hnone : alistGet d k = none := by
      cases hh : alistGet d k
      · rfl
      · rw [hh] at hk; simp at hk
    have hmem : k ∉ d.map Prod.fst := (alistGet_eq_none_iff d k).mp hnone
    simp [List.nodup_append, h, hmem]

theorem validateMethodsEntry_idem : EntIdem validateMethodsEntry := by
  intro k v v2 h
  unfold validateMethodsEntry at h ⊢
  split at h <;> (try cases h) <;> rfl

theorem validateMethodsDict_idem (d m : Dict)
    (h : validateMethodsDict d = some m) : validateMethodsDict m = some m := by
  unfold validateMethodsDict at h ⊢
  cases hb : validateEntries validateMethodsEntry [] d with
  | none => rw [hb] at h; cases h
  | some b =>
    rw [hb] at h
    simp at h
    subst h
    have hvalid : AllValid validateMethodsEntry b :=
      validateEntries_allValid validateMethodsEntry validateMethodsEntry_idem d [] b
        (fun k v hmem => absurd hmem (List.not_mem_nil _)) hb
    have hnd : (b.map Prod.fst).Nodup :=
      validateEntries_nodup validateMethodsEntry d [] b (by simp) hb
    have hvalidm : AllValid validateMethodsEntry (methodsDefaults b) := by
      intro k v hmem
      unfold methodsDefaults at hmem
      rcases mem_addDefault _ _ _ _ hmem with h2 | h2
      · rcases mem_addDefault _ _ _ _ h2 with h3 | h3
        · exact hvalid k v h3
        · obtain ⟨hk, hv⟩ := Prod.mk.injEq .. ▸ h3
          subst hk; subst hv
          rfl
      · obtain ⟨hk, hv⟩ := Prod.mk.injEq .. ▸ h2
        subst hk; subst hv
        rfl
    have hndm : ((methodsDefaults b).map Prod.fst).Nodup := by
      unfold methodsDefaults
      exact nodup_keys_addDefault _ _ _ (nodup_keys_addDefault _ _ _ hnd)
    have hrec := validateEntries_reconstruct validateMethodsEntry (methodsDefaults b) []
      hvalidm (by simpa using hndm)
    rw [List.nil_append] at hrec
    rw [hrec]
    have hcover : methodsDefaults (methodsDefaults b) = methodsDefaults b := by
      unfold methodsDefaults
      rw [addDefault_of_isSome _ "undocumented" _
        (alistGet_isSome_addDefault_mono _ _ _ _ (alistGet_isSome_addDefault_self _ _ _)),
        addDefault_of_isSome _ "private" _ (alistGet_isSome_addDefault_self _ _ _)]
    simp [hcover]

theorem validateParsoEntry_idem : EntIdem validateParsoEntry := by
  intro k v v2 h
  unfold validateParsoEntry at h ⊢
  split at h
  · cases h; rfl
  · cases h; rfl
  · cases h; rfl
  · cases h; rfl
  · cases h; rfl
  · rename_i md
    simp at h
    obtain ⟨m, hm, hv2⟩ := h
    subst hv2
    simp [validateMethodsDict_idem md m hm]
  · cases h

theorem parsoDefaults_of_covered (x : Dict)
    (h1 : (alistGet x "version").isSome) (h2 : (alistGet x "encoding").isSome)
    (h3 : (alistGet x "depth").isSome) (h4 : (alistGet x "deep").isSome)
    (h5 : (alistGet x "methods").isSome) : parsoDefaults x = x := by
  unfold parsoDefaults
  rw [addDefault_of_isSome x "version" _ h1, addDefault_of_isSome x "encoding" _ h2,
    addDefault_of_isSome x "depth" _ h3, addDefault_of_isSome x "deep" _ h4,
    addDefault_of_isSome x "methods" _ h5]

/-- Claim C2, as stated, is false at a concrete input: validating the
empty raw options succeeds and yields the fully-defaulted mapping
(`version=None, encoding="utf-8", depth=2, deep=True,
methods={undocumented: True, private: False}`), but applying
`validate_options` a second time to that result fails, because the
defaulted `version = None` does not satisfy the schema's declared type
`str` for an explicitly present `version` key. -/
theorem c2_idempotence_counterexample :
    validate_options [] = some parsoDefaultOptions ∧
    validate_options parsoDefaultOptions = none :=
  ⟨rfl, rfl⟩

/-- Claim C2 (amended): option validation is idempotent for every
accepted raw-options mapping that itself supplies the `version` key:
re-validating the fully-defaulted result succeeds and returns it
unchanged.  (Idempotence fails exactly when `version` is absent and thus
defaulted to `None`, which the `str` type then rejects.) -/
theorem c2_validate_options_idempotent_with_version (d r : Dict)
    (hd : validate_options d = some r)
    (hv : (alistGet d "version").isSome) :
    validate_options r = some r := by
  unfold validate_options at hd ⊢
  cases hb : validateEntries validateParsoEntry [] d with
  | none => rw [hb] at hd; cases hd
  | some b =>
    rw [hb] at hd
    simp at hd
    subst hd
    have hvalid : AllValid validateParsoEntry b :=
      validateEntries_allValid validateParsoEntry validateParsoEntry_idem d [] b
        (fun k v hmem => absurd hmem (List.not_mem_nil _)) hb
    have hnd : (b.map Prod.fst).Nodup :=
      validateEntries_nodup validateParsoEntry d [] b (by simp) hb
    have hbver : (alistGet b "version").isSome := by
      refine validateEntries_covers validateParsoEntry d [] b "version" hb (Or.inr ?_)
      exact (alistGet_isSome_iff_mem d "version").mp hv
    have hr : parsoDefaults b =
        addDefault (addDefault (addDefault (addDefault b
          "encoding" (Val.vstr "utf-8"))
          "depth" (Val.vint 2))
          "deep" (Val.vbool true))
          "methods" (Val.vdict [("undocumented", Val.vbool true),
            ("private", Val.vbool false)]) := by
      unfold parsoDefaults
      rw [addDefault_of_isSome b "version" Val.vnone hbver]
    have hvalidr : AllValid validateParsoEntry (parsoDefaults b) := by
      intro k v hmem
      rw [hr] at hmem
      rcases mem_addDefault _ _ _ _ hmem with h2 | h2
      · rcases mem_addDefault _ _ _ _ h2 with h3 | h3
        · rcases mem_addDefault _ _ _ _ h3 with h4 | h4
          · rcases mem_addDefault _ _ _ _ h4 with h5 | h5
            · exact hvalid k v h5
            · obtain ⟨hk, hv2⟩ := Prod.mk.injEq .. ▸ h5
              subst hk; subst hv2
              rfl
          · obtain ⟨hk, hv2⟩ := Prod.mk.injEq .. ▸ h4
            subst hk; subst hv2
            rfl
        · obtain ⟨hk, hv2⟩ := Prod.mk.injEq .. ▸ h3
          subst hk; subst hv2
          rfl
      · obtain ⟨hk, hv2⟩ := Prod.mk.injEq .. ▸ h2
        subst hk; subst hv2
        rfl
    have hndr : ((parsoDefaults b).map Prod.fst).Nodup := by
      unfold parsoDefaults
      exact nodup_keys_addDefault _ _ _ (nodup_keys_addDefault _ _ _
        (nodup_keys_addDefault _ _ _ (nodup_keys_addDefault _ _ _
          (nodup_keys_addDefault _ _ _ hnd))))
    have hrec := validateEntries_reconstruct validateParsoEntry (parsoDefaults b) []
      hvalidr (by simpa using hndr)
    rw [List.nil_append] at hrec
    rw [hrec]
    have hcov : parsoDefaults (parsoDefaults b) = parsoDefaults b := by
      have h1 : (alistGet (parsoDefaults b) "version").isSome := by
        unfold parsoDefaults
        exact alistGet_isSome_addDefault_mono _ _ _ _
          (alistGet_isSome_addDefault_mono _ _ _ _
            (alistGet_isSome_addDefault_mono _ _ _ _
              (alistGet_isSome_addDefault_mono _ _ _ _
                (alistGet_isSome_addDefault_self _ _ _))))
      have h2 : (alistGet (parsoDefaults b) "encoding").isSome := by
        unfold parsoDefaults
        exact alistGet_isSome_addDefault_mono _ _ _ _
          (alistGet_isSome_addDefault_mono _ _ _ _
            (alistGet_isSome_addDefault_mono _ _ _ _
              (alistGet_isSome_addDefault_self _ _ _)))
      have h3 : (alistGet (parsoDefaults b) "depth").isSome := by
        unfold parsoDefaults
        exact alistGet_isSome_addDefault_mono _ _ _ _
          (alistGet_isSome_addDefault_mono _ _ _ _
            (alistGet_isSome_addDefault_self _ _ _))
      have h4 : (alistGet (parsoDefaults b) "deep").isSome := by
        unfold parsoDefaults
        exact alistGet_isSome_addDefault_mono _ _ _ _
          (alistGet_isSome_addDefault_self _ _ _)
      have h5 : (alistGet (parsoDefaults b) "methods").isSome := by
        unfold parsoDefaults
        exact alistGet_isSome_addDefault_self _ _ _
      exact parsoDefaults_of_covered (parsoDefaults b) h1 h2 h3 h4 h5
    simp [hcov]

/-- Witness for C2's amended theorem: raw options `{"version": "3.8"}`
validate to a fully-defaulted mapping that re-validates to itself. -/
theorem c2_validate_options_idempotent_witness :
    validate_options [("version", Val.vstr "3.8"), ("encoding", Val.vstr "utf-8"),
      ("depth", Val.vint 2), ("deep", Val.vbool true),
      ("methods", Val.vdict [("undocumented", Val.vbool true),
        ("private", Val.vbool false)])] =
    some [("version", Val.vstr "3.8"), ("encoding", Val.vstr "utf-8"),
      ("depth", Val.vint 2), ("deep", Val.vbool true),
      ("methods", Val.vdict [("undocumented", Val.vbool true),
        ("private", Val.vbool false)])] :=
  c2_validate_options_idempotent_with_version [("version", Val.vstr "3.8")]
    [("version", Val.vstr "3.8"), ("encoding", Val.vstr "utf-8"),
      ("depth", Val.vint 2), ("deep", Val.vbool true),
      ("methods", Val.vdict [("undocumented", Val.vbool true),
        ("private", Val.vbool false)])] rfl rfl

/-! ## `yaarg/generators/parso.py`

The parso syntax tree is modelled by `PNode`: modules, classes and
functions carry the data the generator reads off them (name, parsed
docstring, decorators, parameters, return annotation, children);
`pyNode` is a transparent `PythonNode` wrapper whose children are
promoted by `iter_children`; `leaf` stands for any other node (names,
strings, operators), which has no `name` attribute and produces no
output.  The external `parso` parser and `docstring_parser` are black
boxes: a node's `doc` field is `some` exactly when `get_doc_node()`
returns a node, and then holds the `parse_docstring` result. -/

/-- One entry of a parsed docstring's parameter documentation
(`docstring_parser`'s `DocstringParam`). -/
structure DocParam where
  arg_name : String
  type_name : Option String
  description : Option String
  default : Option String

/-- A parsed docstring's returns documentation. -/
structure DocReturns where
  type_name : Option String
  description : Option String

/-- The result of `docstring_parser.parse`. -/
structure ParsedDoc where
  short_description : Option String
  long_description : Option String
  params : List DocParam
  returns : Option DocReturns

/-- A function parameter node (`parso.python.tree.Param`): its name, its
`get_code()` text (which includes the separating comma and whitespace),
and the `get_code()` of its annotation and default when present.
`ann` models the source's `annotation` attribute. -/
structure ParamNode where
  name : String
  code : String
  ann : Option String
  default : Option String

/-- A parso tree node, restricted to the shape the generator inspects. -/
inductive PNode where
  | module (doc : Option ParsedDoc) (children : List PNode)
  | cls (name : String) (doc : Option ParsedDoc) (children : List PNode)
  | func (name : String) (doc : Option ParsedDoc) (decorators : List String)
      (params : List ParamNode) (ann : Option String) (children : List PNode)
  | pyNode (children : List PNode)
  | leaf

/-- `getattr(node, "name", None)`: only classes and functions have a
`name` attribute among the node kinds the lookup meets. -/
def nodeName : PNode → Option String
  | PNode.cls n _ _ => some n
  | PNode.func n _ _ _ _ _ => some n
  | _ => none

/-- `node.children` for the kinds that have children. -/
def nodeChildren : PNode → List PNode
  | PNode.module _ cs => cs
  | PNode.cls _ _ cs => cs
  | PNode.func _ _ _ _ _ cs => cs
  | PNode.pyNode cs => cs
  | PNode.leaf => []

/-- The flattening loop of `iter_children` over a child list: a
`PythonNode` wrapper's children are promoted recursively (the body of
`iter_children`, parso.py lines 241–245). -/
def iterChildrenList : List PNode → List PNode
  | [] => []
  | PNode.pyNode cs2 :: cs => iterChildrenList cs2 ++ iterChildrenList cs
  | c :: cs => c :: iterChildrenList cs

/-- `iter_children` (parso.py lines 237–245): yield the node's children,
recursively flattening `PythonNode` wrappers; `None` yields nothing. -/
def iter_children : Option PNode → List PNode
  | none => []
  | some n => iterChildrenList (nodeChildren n)

/-- `find_symbol`'s loop (parso.py lines 224–232): for each dotted part,
scan the flattened children of the current node for the first child whose
`name` equals the part; if none matches, return `None` (the `for`'s
`else`). -/
def find_symbol_go : Option PNode → List String → Option PNode
  | cur, [] => cur
  | cur, part :: parts =>
    match (iter_children cur).find? (fun c => nodeName c == some part) with
    | some child => find_symbol_go (some child) parts
    | none => none

/-- Python `str.split(sep)` without a maxsplit (every occurrence splits;
empty parts are kept). -/
def splitAll (sep : Char) : List Char → List (List Char)
  | [] => [[]]
  | c :: cs =>
    if c == sep then [] :: splitAll sep cs
    else
      match splitAll sep cs with
      | [] => [[c]]
      | p :: rest => (c :: p) :: rest

/-- `path.split(".")`. -/
def pySplitDot (path : String) : List String :=
  (splitAll '.' path.data).map fun cs => String.mk cs

/-- `find_symbol(module, path)` (parso.py lines 221–234). -/
def find_symbol (module : Option PNode) (path : String) : Option PNode :=
  find_symbol_go module (pySplitDot path)

/-- The nested `methods` options; `priv` models the source's `private`
key (a Lean keyword). -/
structure MethodsOpts where
  undocumented : Bool
  priv : Bool

/-- The validated parso generator options, as the generator reads them. -/
structure GenOptions where
  version : Option String
  encoding : String
  depth : Int
  deep : Bool
  methods : MethodsOpts

/-- `ParsoGeneratorContext` (parso.py lines 24–41). -/
structure ParsoGeneratorContext where
  filepath : String
  symbol : Option String
  parent : Option PNode
  depth : Int
  deep : Bool
  options : GenOptions

/-- `context.set_parent(parent)`: replace the parent and increment the
depth, leaving everything else unchanged. -/
def ParsoGeneratorContext.set_parent (ctx : ParsoGeneratorContext) (p : PNode) :
    ParsoGeneratorContext :=
  { ctx with parent := some p, depth := ctx.depth + 1 }

/-- A markdown fragment produced by the generator. -/
inductive Fragment where
  | heading (text : String) (level : Int)
  | paragraph (text : Option String)
  | block (lines : List String)
deriving DecidableEq

/-- Modelled from the spec: `markdown_heading` is imported by the
generator from `yaarg.generators.base` but its definition is not among
the provided sources; per the spec it emits a heading fragment at the
given level. -/
def markdown_heading (text : String) (level : Int) : Fragment :=
  Fragment.heading text level

/-- Modelled from the spec: `markdown_paragraph`, a paragraph fragment
(the generator may pass `None`, e.g. an absent short description). -/
def markdown_paragraph (text : Option String) : Fragment :=
  Fragment.paragraph text

/-- Modelled from the spec: the `markdown_block` builder; the fragment a
block builds from the lines written to it. -/
def markdown_block_build (lines : List String) : Fragment :=
  Fragment.block lines

/-- The two docstring paragraphs emitted for modules and classes when a
doc node is present (short description, then long description). -/
def docParagraphs : Option ParsedDoc → List Fragment
  | some d => [markdown_paragraph d.short_description, markdown_paragraph d.long_description]
  | none => []

/-- `re.match(r"^_[^_]+?$", name)` as a boolean: an underscore followed
by one or more non-underscore characters (so dunder names never match). -/
def matchPrivate (name : String) : Bool :=
  match name.data with
  | '_' :: rest => !rest.isEmpty && rest.all fun c => c != '_'
  | _ => false

/-- `re.search(needle, s)` for a literal needle: substring containment. -/
def hasSub (needle s : String) : Bool :=
  (s.splitOn needle).length != 1

/-- Python truthiness of an optional string (`None` and `""` are falsy). -/
def truthyStr : Option String → Bool
  | none => false
  | some s => !s.isEmpty

/-- The `a or b or "-"` fallback chains used for table cells. -/
def orChain (a b : Option String) : String :=
  if truthyStr a then a.getD "-" else if truthyStr b then b.getD "-" else "-"

/-- `str.format` of an optional value (`None` renders as `"None"`). -/
def pyStrOpt : Option String → String
  | some s => s
  | none => "None"

/-- The `param_nodes` ordered dict (parso.py lines 140–146): the declared
parameters minus a first parameter named `self` or `cls`; parameter names
are unique, so the ordered dict is the filtered list itself. -/
def paramNodes : List ParamNode → List ParamNode
  | [] => []
  | p :: rest =>
    if p.name == "self" || p.name == "cls" then rest else p :: rest

/-- `param_docs.get(name)` where `param_docs` is the dict comprehension
over `doc.params` (a later duplicate `arg_name` would win, hence the
reversed search). -/
def paramDocGet (doc : Option ParsedDoc) (pname : String) : Option DocParam :=
  match doc with
  | none => none
  | some d => d.params.reverse.find? fun pd => pd.arg_name == pname

/-- `ParsoGenerator._generate_func_doc` (parso.py lines 122–218):
suppress the function if undocumented symbols are hidden and it has no
doc node, or if private names are hidden and the name matches the
single-underscore pattern; otherwise emit the heading (with the
`Class#method` / `Class.staticmethod` member prefix), the short
description when documented, an Arguments table when parameters remain,
the Returns table always, and a Details section when a long description
exists. -/
def generate_func_doc (name : String) (doc : Option ParsedDoc) (decorators : List String)
    (params : List ParamNode) (ann : Option String) (ctx : ParsoGeneratorContext) :
    List Fragment :=
  if !ctx.options.methods.undocumented && doc.isNone then []
  else if !ctx.options.methods.priv && matchPrivate name then []
  else
    let pfx : String :=
      match ctx.parent with
      | some (PNode.cls pname _ _) =>
        let is_static := decorators.any fun dec =>
          hasSub "staticmethod" dec || hasSub "classmethod" dec
        pname ++ (if is_static then "." else "#")
      | _ => ""
    let pns := paramNodes params
    let headText := "`" ++ pfx ++ name ++ "(" ++
      (String.join (pns.map ParamNode.code)).trim ++ ")`\n"
    let shortPart : List Fragment :=
      match doc with
      | some d => [markdown_paragraph d.short_description]
      | none => []
    let argsPart : List Fragment :=
      if pns.isEmpty then []
      else
        [markdown_heading "Arguments" (ctx.depth + 1),
         markdown_block_build ("| Name | Type | Description | Default |" ::
           "| ---- | ---- | ----------- | ------- |" ::
           pns.map fun p =>
             let pd := paramDocGet doc p.name
             let tyCell := orChain (pd.bind DocParam.type_name) p.ann
             let descCell :=
               match pd with
               | none => "-"
               | some x => pyStrOpt x.description
             let dfltCell := orChain (pd.bind DocParam.default) p.default
             "| " ++ p.name ++ " | " ++ tyCell ++ " | " ++ descCell ++ " | " ++
               dfltCell ++ " |")]
    let retDoc := doc.bind ParsedDoc.returns
    let retTy := orChain (retDoc.bind DocReturns.type_name) ann
    let retDesc := orChain (retDoc.bind DocReturns.description) none
    let returnsPart : List Fragment :=
      [markdown_heading "Returns" (ctx.depth + 1),
       markdown_block_build ["| Type | Description |", "| ---- | ----------- |",
         "| " ++ retTy ++ " | " ++ retDesc ++ " |"]]
    let detailsPart : List Fragment :=
      match doc with
      | some d =>
        match d.long_description with
        | some l =>
          if l.isEmpty then []
          else [markdown_heading "Details" (ctx.depth + 1), markdown_paragraph (some l)]
        | none => []
      | none => []
    markdown_heading headText ctx.depth :: (shortPart ++ argsPart ++ returnsPart ++ detailsPart)

mutual

/-- `ParsoGenerator._generate_doc` (parso.py lines 84–90): dispatch on
the node kind; anything that is not a module, class or function (or is
`None`, e.g. a failed symbol lookup) yields nothing. -/
def generate_doc : Option PNode → ParsoGeneratorContext → List Fragment
  | none, _ => []
  | some PNode.leaf, _ => []
  | some (PNode.pyNode _), _ => []
  | some (PNode.module d cs), ctx => generate_module_doc d cs ctx
  | some (PNode.cls n d cs), ctx => generate_class_doc n d cs ctx
  | some (PNode.func n d decs ps ann _), ctx => generate_func_doc n d decs ps ann ctx
termination_by n _ => (sizeOf n, 0)
decreasing_by
  all_goals simp_wf
  all_goals simp [Prod.lex_def]
  all_goals omega

/-- `ParsoGenerator._generate_module_doc` (parso.py lines 92–105): the
filepath heading, the doc paragraphs when a doc node is present, and —
when `deep` — the docs of every flattened child with this module as
parent and depth incremented. -/
def generate_module_doc (doc : Option ParsedDoc) (children : List PNode)
    (ctx : ParsoGeneratorContext) : List Fragment :=
  markdown_heading ("`" ++ ctx.filepath ++ "`") ctx.depth ::
    (docParagraphs doc ++
      (if ctx.deep then
        generate_children children (ctx.set_parent (PNode.module doc children))
      else []))
termination_by (sizeOf children, 3)
decreasing_by
  all_goals simp [Prod.lex_def]

/-- `ParsoGenerator._generate_class_doc` (parso.py lines 107–120): the
class-name heading is emitted unconditionally; doc paragraphs when a
doc node is present; children recursed when `deep`. -/
def generate_class_doc (name : String) (doc : Option ParsedDoc) (children : List PNode)
    (ctx : ParsoGeneratorContext) : List Fragment :=
  markdown_heading ("`" ++ name ++ "`") ctx.depth ::
    (docParagraphs doc ++
      (if ctx.deep then
        generate_children children (ctx.set_parent (PNode.cls name doc children))
      else []))
termination_by (sizeOf children, 3)
decreasing_by
  all_goals simp [Prod.lex_def]

/-- `for child_node in iter_children(node): yield from
self._generate_doc(child_node, context)`, with the `iter_children`
flattening of `PythonNode` wrappers inlined into the walk. -/
def generate_children : List PNode → ParsoGeneratorContext → List Fragment
  | [], _ => []
  | PNode.pyNode cs2 :: cs, ctx => generate_children cs2 ctx ++ generate_children cs ctx
  | c :: cs, ctx => generate_doc (some c) ctx ++ generate_children cs ctx
termination_by cs _ => (sizeOf cs, 2)
decreasing_by
  all_goals simp_wf
  all_goals simp [Prod.lex_def]
  all_goals omega

end

/-- `ParsoGenerator.generate` (parso.py lines 63–82) after the external
parse step: `module` stands for the tree that `grammar.parse` returned;
with a symbol the root node is the `find_symbol` result (possibly
`None`), and the context is seeded from the validated options. -/
def ParsoGenerator.generate (module : PNode) (filepath : String) (symbol : Option String)
    (options : GenOptions) : List Fragment :=
  let root : Option PNode :=
    match symbol with
    | some s => find_symbol (some module) s
    | none => some module
  generate_doc root
    { filepath := filepath, symbol := symbol, parent := none,
      depth := options.depth, deep := options.deep, options := options }

/-- Reaching a node by repeatedly taking the first flattened child whose
name matches the next dotted part. -/
inductive Follows : PNode → List String → PNode → Prop where
  | nil (n : PNode) : Follows n [] n
  | cons (n c m : PNode) (part : String) (parts : List String)
      (hfind : (iter_children (some n)).find? (fun x => nodeName x == some part) = some c)
      (hrest : Follows c parts m) : Follows n (part :: parts) m

theorem find_symbol_go_iff (parts : List String) (n m : PNode) :
    find_symbol_go (some n) parts = some m ↔ Follows n parts m := by
  induction parts generalizing n with
  | nil =>
    simp only [find_symbol_go, Option.some.injEq]
    constructor
    · intro h
      subst h
      exact Follows.nil n
    · intro h
      cases h
      rfl
  | cons part parts ih =>
    cases hfind : (iter_children (some n)).find? (fun x => nodeName x == some part) with
    | some child =>
      simp only [find_symbol_go, hfind]
      constructor
      · intro h
        exact Follows.cons n child m part parts hfind ((ih child).mp h)
      · intro h
        cases h with
        | cons _ c2 _ _ _ hfind2 hrest =>
          rw [hfind] at hfind2
          cases hfind2
          exact (ih child).mpr hrest
    | none =>
      simp only [find_symbol_go, hfind]
      constructor
      · intro h
        cases h
      · intro h
        cases h with
        | cons _ c2 _ _ _ hfind2 hrest =>
          rw [hfind] at hfind2
          cases hfind2

/-- Claim C5: when some dotted part has no matching named node among the
flattened children of the current node, `generate` produces the empty
fragment sequence (no error); and symbol lookup succeeds exactly on the
node reached by following the matching children part by part. -/
theorem c5_symbol_lookup (module : PNode) (path filepath : String) (options : GenOptions) :
    (find_symbol (some module) path = none →
      ParsoGenerator.generate module filepath (some path) options = []) ∧
    (∀ m, find_symbol (some module) path = some m ↔ Follows module (pySplitDot path) m) := by
  constructor
  · intro h
    simp only [ParsoGenerator.generate, h]
    simp [generate_doc]
  · intro m
    exact find_symbol_go_iff (pySplitDot path) module m

/-- A concrete synthetic tree: module → class `ClassName` → (wrapped)
function `method_name`. -/
def funcC5 : PNode := PNode.func "method_name" none [] [] none []

/-- The class node of the synthetic tree. -/
def clsC5 : PNode := PNode.cls "ClassName" none [PNode.pyNode [funcC5], PNode.leaf]

/-- The module node of the synthetic tree. -/
def treeC5 : PNode := PNode.module none [clsC5]

/-- Default validated options as a `GenOptions` value. -/
def defaultGenOptions : GenOptions :=
  { version := none, encoding := "utf-8", depth := 2, deep := true,
    methods := { undocumented := true, priv := false } }

/-- Witness for C5: `ClassName.method_name` resolves to exactly the
function node; `ClassName.missing` makes `generate` produce nothing. -/
theorem c5_symbol_lookup_witness :
    find_symbol (some treeC5) "ClassName.method_name" = some funcC5 ∧
    ParsoGenerator.generate treeC5 "mod.py" (some "ClassName.missing")
      defaultGenOptions = [] := by
  constructor
  · refine ((c5_symbol_lookup treeC5 "ClassName.method_name" "mod.py"
      defaultGenOptions).2 funcC5).mpr ?_
    have hsplit : pySplitDot "ClassName.method_name" = ["ClassName", "method_name"] := rfl
    rw [hsplit]
    refine Follows.cons treeC5 clsC5 funcC5 "ClassName" ["method_name"] ?_ ?_
    · simp [treeC5, clsC5, funcC5, iter_children, nodeChildren, iterChildrenList,
        nodeName, List.find?]
    · refine Follows.cons clsC5 funcC5 funcC5 "method_name" [] ?_ (Follows.nil funcC5)
      simp [clsC5, funcC5, iter_children, nodeChildren, iterChildrenList,
        nodeName, List.find?]
  · refine (c5_symbol_lookup treeC5 "ClassName.missing" "mod.py" defaultGenOptions).1 ?_
    simp [find_symbol, pySplitDot, splitAll, find_symbol_go, treeC5, clsC5, funcC5,
      iter_children, nodeChildren, iterChildrenList, nodeName, List.find?]

/-- A context with default validated options (undocumented symbols are
shown: `methods.undocumented = true`). -/
def ctxDefault : ParsoGeneratorContext :=
  { filepath := "mod.py", symbol := none, parent := none, depth := 2, deep := true,
    options := defaultGenOptions }

/-- A context with the hide-undocumented policy enabled
(`methods.undocumented = false`). -/
def ctxHide : ParsoGeneratorContext :=
  { filepath := "mod.py", symbol := none, parent := none, depth := 2, deep := true,
    options := { version := none, encoding := "utf-8", depth := 2, deep := true,
                 methods := { undocumented := false, priv := false } } }

/-- Claim C6, as stated, is false at a concrete input: with the
hide-undocumented policy enabled and a class `C` without a doc string
(holding a documented method), the rendered output's first fragment is
the class heading — the heading is not suppressed. -/
theorem c6_class_heading_counterexample :
    (generate_doc (some (PNode.cls "C" none
        [PNode.func "m" (some ⟨some "Doc.", none, [], none⟩) [] [] none []])) ctxHide).head? =
      some (Fragment.heading "`C`" 2) := by
  simp [generate_doc, generate_class_doc, docParagraphs, markdown_heading, ctxHide]

/-- Claim C6 (amended): rendering a class node never suppresses the class
heading: even with the hide-undocumented policy enabled and no class doc
string, the heading is emitted first, and the flattened children are
still recursed into exactly when `deep` is enabled (so a documented
method inside an undocumented class is still shown). -/
theorem c6_class_heading_always_emitted (name : String) (children : List PNode)
    (ctx : ParsoGeneratorContext)
    (_hpolicy : ctx.options.methods.undocumented = false) :
    generate_doc (some (PNode.cls name none children)) ctx =
      Fragment.heading ("`" ++ name ++ "`") ctx.depth ::
        (if ctx.deep then
          generate_children children (ctx.set_parent (PNode.cls name none children))
        else []) := by
  simp [generate_doc, generate_class_doc, docParagraphs, markdown_heading]

/-- Witness for C6's amended theorem: a concrete undocumented class under
the enabled policy still renders its heading and recurses into its
documented method. -/
theorem c6_class_heading_always_emitted_witness :
    generate_doc (some (PNode.cls "K" none
        [PNode.func "m" (some ⟨some "Doc.", none, [], none⟩) [] [] none []])) ctxHide =
      Fragment.heading ("`" ++ "K" ++ "`") ctxHide.depth ::
        (if ctxHide.deep then
          generate_children [PNode.func "m" (some ⟨some "Doc.", none, [], none⟩) [] [] none []]
            (ctxHide.set_parent (PNode.cls "K" none
              [PNode.func "m" (some ⟨some "Doc.", none, [], none⟩) [] [] none []]))
        else []) :=
  c6_class_heading_always_emitted "K"
    [PNode.func "m" (some ⟨some "Doc.", none, [], none⟩) [] [] none []] ctxHide rfl

/-- Claim C7, as stated, is false at a concrete input: under the default
options (`methods.undocumented = true`), a function `foo` with no doc
string produces output (a heading and a Returns table), not zero lines. -/
theorem c7_default_undocumented_counterexample :
    generate_func_doc "foo" none [] [] none ctxDefault ≠ [] := by
  have hpriv : matchPrivate "foo" = false := rfl
  simp [generate_func_doc, ctxDefault, defaultGenOptions, hpriv]

/-- Claim C7 (amended): the polarity is the reverse of the claim.  Under
the default `methods.undocumented = true`, a function node with no doc
string (and a name the private filter does not match) still renders: the
first fragment is its heading at the context depth, a Returns heading is
always present, and an Arguments heading is present exactly when
parameters remain after dropping a leading `self`/`cls`.  With
`methods.undocumented = false` the same function produces no output. -/
theorem c7_undocumented_function_rendering (ctx : ParsoGeneratorContext) (name : String)
    (decorators : List String) (params : List ParamNode) (ann : Option String)
    (hpriv : matchPrivate name = false) :
    (ctx.options.methods.undocumented = true →
      (∃ t, (generate_func_doc name none decorators params ann ctx).head? =
          some (Fragment.heading t ctx.depth)) ∧
      Fragment.heading "Returns" (ctx.depth + 1) ∈
        generate_func_doc name none decorators params ann ctx ∧
      (Fragment.heading "Arguments" (ctx.depth + 1) ∈
          generate_func_doc name none decorators params ann ctx ↔
        paramNodes params ≠ [])) ∧
    (ctx.options.methods.undocumented = false →
      generate_func_doc name none decorators params ann ctx = []) := by
  constructor
  · intro h
    have hdep : ¬(ctx.depth + 1 = ctx.depth) := by omega
    have he : generate_func_doc name none decorators params ann ctx =
        Fragment.heading ("`" ++
            (match ctx.parent with
             | some (PNode.cls pname _ _) =>
               pname ++ (if decorators.any (fun dec =>
                 hasSub "staticmethod" dec || hasSub "classmethod" dec) then "." else "#")
             | _ => "") ++ name ++ "(" ++
            (String.join ((paramNodes params).map ParamNode.code)).trim ++ ")`\n")
          ctx.depth ::
        ((if (paramNodes params).isEmpty then []
          else
            [Fragment.heading "Arguments" (ctx.depth + 1),
             Fragment.block ("| Name | Type | Description | Default |" ::
               "| ---- | ---- | ----------- | ------- |" ::
               (paramNodes params).map fun p =>
                 "| " ++ p.name ++ " | " ++ orChain none p.ann ++ " | " ++ "-" ++ " | " ++
                   orChain none p.default ++ " |")]) ++
          [Fragment.heading "Returns" (ctx.depth + 1),
           Fragment.block ["| Type | Description |", "| ---- | ----------- |",
             "| " ++ orChain none ann ++ " | " ++ orChain none none ++ " |"]]) := by
      simp [generate_func_doc, h, hpriv, markdown_heading, markdown_paragraph,
        markdown_block_build, paramDocGet]
    rw [he]
    refine ⟨⟨_, rfl⟩, ?_, ?_⟩
    · cases hp : (paramNodes params).isEmpty <;> simp [hp]
    · cases hp : (paramNodes params).isEmpty with
      | true =>
        have hnil : paramNodes params = [] := List.isEmpty_iff.mp hp
        simp [hp, hdep, hnil]
      | false =>
        have hne : paramNodes params ≠ [] := by
          intro habs
          rw [habs] at hp
          simp at hp
        simp [hp, hne]
  · intro h
    simp [generate_func_doc, h]

/-- Witness for C7's amended theorem: for the undocumented `foo` with no
parameters, the hidden-policy context yields no output and the default
context yields a Returns heading. -/
theorem c7_undocumented_function_rendering_witness :
    generate_func_doc "foo" none [] [] none ctxHide = [] ∧
    Fragment.heading "Returns" (ctxDefault.depth + 1) ∈
      generate_func_doc "foo" none [] [] none ctxDefault :=
  ⟨(c7_undocumented_function_rendering ctxHide "foo" [] [] none rfl).2 rfl,
   ((c7_undocumented_function_rendering ctxDefault "foo" [] [] none rfl).1 rfl).2.1⟩

/-- Claim C8: with the default `methods.private = false`, every function
whose name matches the single-leading-underscore pattern `^_[^_]+$`
produces no output, while a name with a double leading underscore (such
as `__init__`) is never matched by the private-name filter. -/
theorem c8_private_filter :
    (∀ (ctx : ParsoGeneratorContext) (name : String) (doc : Option ParsedDoc)
        (decorators : List String) (params : List ParamNode) (ann : Option String),
      ctx.options.methods.priv = false → matchPrivate name = true →
      generate_func_doc name doc decorators params ann ctx = []) ∧
    (∀ s : String, matchPrivate ("__" ++ s) = false) := by
  constructor
  · intro ctx name doc decorators params ann hpriv hmatch
    by_cases hu : (!ctx.options.methods.undocumented && doc.isNone) = true
    · simp [generate_func_doc, hu]
    · simp [generate_func_doc, hu, hpriv, hmatch]
  · intro s
    have hdata : ("__" ++ s).data = '_' :: '_' :: s.data := by
      simp [String.data_append]
    simp [matchPrivate, hdata]

/-- Witness for C8: `_helper` is suppressed under default options even
though it is documented, and the dunder name `__init__` does not match
the private pattern. -/
theorem c8_private_filter_witness :
    generate_func_doc "_helper" (some ⟨some "Doc.", none, [], none⟩) [] [] none ctxDefault =
      [] ∧
    matchPrivate ("__" ++ "init__") = false :=
  ⟨c8_private_filter.1 ctxDefault "_helper" (some ⟨some "Doc.", none, [], none⟩) [] [] none
      rfl rfl,
   c8_private_filter.2 "init__"⟩
